import Mathlib

set_option maxRecDepth 8000
set_option maxHeartbeats 3000000

/-!
Verification development for the Data-Modelling example scripts.

The repository is a set of demonstration scripts built around one shared
contract: a small in-memory Dataset is written to a text or archive format,
read back, and aggregated.  We embed that contract shallowly: the
semicolon-delimited CSV format of pandas_examples.py (header row, ISO date
column, numeric columns where a blank field denotes a missing value), the
named-array archive of numpy_examples.py, the destructive and
non-destructive list edits of python_examples.py, and the aggregate
statistics (mean, grouped mean, Pearson correlation, linear regression)
the scripts compute over rational numbers.
-/

namespace DataModelling

/-- Character for a decimal digit (`0` maps to `'0'`, code 48). -/
def digitChar (d : ℕ) : Char := Char.ofNat (48 + d)

/-- Numeric value of a decimal digit character. -/
def charDigit (c : Char) : ℕ := c.toNat - 48

/-- Decimal digits of n, least significant first, structurally recursive
on a fuel bound (any fuel at least n gives all digits). -/
def natDigitsRev : ℕ → ℕ → List ℕ
  | 0, _ => []
  | _ + 1, 0 => []
  | fuel + 1, n + 1 => (n + 1) % 10 :: natDigitsRev fuel ((n + 1) / 10)

/-- Decimal rendering of a natural number, most significant digit first. -/
def renderNat (n : ℕ) : List Char :=
if n = 0 then [digitChar 0] else (natDigitsRev n n).reverse.map digitChar

/-- Parse a nonempty all-digit character list as a decimal natural number. -/
def parseNat? (cs : List Char) : Option ℕ :=
if cs ≠ [] ∧ cs.all Char.isDigit = true then
  some (Nat.ofDigits 10 ((cs.map charDigit).reverse))
else none

/-- Zero-padded decimal rendering to (at least) width `w`. -/
def padNat (w n : ℕ) : List Char :=
List.replicate (w - (renderNat n).length) (digitChar 0) ++ renderNat n

/-- Decimal rendering of an integer, with a leading minus sign if negative. -/
def renderInt (i : ℤ) : List Char :=
if i < 0 then '-' :: renderNat i.natAbs else renderNat i.natAbs

/-- Parse an optionally-minus-signed decimal integer. -/
def parseInt? (cs : List Char) : Option ℤ :=
if cs.head? = some '-' then
  match parseNat? cs.tail with
  | some n => some (-(n : ℤ))
  | none => none
else
  match parseNat? cs with
  | some n => some ((n : ℤ))
  | none => none

/-- Split a character list at every occurrence of `sep`: n separators give
n+1 segments, so the result is never empty (the empty input gives the
single empty segment). -/
def splitSep (sep : Char) : List Char → List (List Char)
  | [] => [[]]
  | c :: cs =>
    match splitSep sep cs with
    | [] => [[]]
    | seg :: rest => if c = sep then [] :: seg :: rest else (c :: seg) :: rest

/-- Join segments with a single separator character between them. -/
def joinSep (sep : Char) : List (List Char) → List Char
  | [] => []
  | [x] => x
  | x :: y :: xs => x ++ sep :: joinSep sep (y :: xs)

/-- Encode lines as a text file: every line is followed by a newline, as in
the scripts' hand-written csv_text. -/
def encodeLines (ls : List (List Char)) : List Char :=
ls.foldr (fun l acc => l ++ '\n' :: acc) []

/-- Recover the lines of a text file, ignoring the blank segment produced by
a trailing newline. -/
def decodeLines (cs : List Char) : List (List Char) :=
let parts := splitSep '\n' cs
if parts.getLast? = some [] then parts.dropLast else parts

/-- Typed value held in one field of a table after the coercions the CSV
format defines: numeric strings become numbers (rationals stand in for the
floats pandas produces), date strings become calendar dates, and a blank
numeric field becomes the explicit missing marker. -/
inductive Cell where
  | str : String → Cell
  | num : ℚ → Cell
  | date : ℕ → ℕ → ℕ → Cell
  | missing : Cell
deriving DecidableEq

/-- Declared type of one column in a format descriptor. -/
inductive ColType where
  | text : ColType
  | numeric : ColType
  | date : ColType
deriving DecidableEq

/-- Format descriptor of a delimited text table: named, typed columns,
semicolon separated with a header row (the format of file.csv in
pandas_examples.py). -/
structure Format where
  cols : List (String × ColType)

/-- No occurrence of character `c` in the list. -/
def noChar (c : Char) (l : List Char) : Bool :=
l.all fun x => decide (x ≠ c)

/-- ISO-style date field, zero padded as in the sample data (2026-02-01). -/
def encodeDateCell (y m d : ℕ) : List Char :=
joinSep '-' [padNat 4 y, padNat 2 m, padNat 2 d]

/-- Render one cell as the characters of a CSV field; a missing numeric
value is written as the empty field, as in the sample data's blank price. -/
def encodeCell : ColType → Cell → List Char
  | ColType.text, Cell.str s => s.data
  | ColType.numeric, Cell.num q => renderInt q.num
  | ColType.numeric, Cell.missing => []
  | ColType.date, Cell.date y m d => encodeDateCell y m d
  | _, _ => []

/-- Parse a field of a date column (year-month-day split on dashes). -/
def parseDate? (cs : List Char) : Option Cell :=
match splitSep '-' cs with
| [ys, ms, ds] =>
  match parseNat? ys, parseNat? ms, parseNat? ds with
  | some y, some m, some d => some (Cell.date y m d)
  | _, _, _ => none
| _ => none

/-- Modelled from the spec: the typed-column field decoding that
pandas.read_csv (sep, parse_dates) performs, which is not part of this
repository's sources.  A text field is taken verbatim, a numeric field is
parsed as a number with the empty field decoding to the missing marker
(never an error and never zero), and a date field is parsed as a calendar
date. -/
def decodeCell : ColType → List Char → Option Cell
  | ColType.text, cs => some (Cell.str (String.mk cs))
  | ColType.numeric, cs =>
    if cs = [] then some Cell.missing
    else
      match parseInt? cs with
      | some i => some (Cell.num (i : ℚ))
      | none => none
  | ColType.date, cs => parseDate? cs

/-- A cell is storable under a column type: text holds no delimiter or
newline, numeric cells are integral (the observed data) or missing. -/
def wfCell : ColType → Cell → Bool
  | ColType.text, Cell.str s => noChar ';' s.data && noChar '\n' s.data
  | ColType.numeric, Cell.num q => decide (q.den = 1)
  | ColType.numeric, Cell.missing => true
  | ColType.date, Cell.date _ _ _ => true
  | _, _ => false

/-- A row matches the format: one storable cell per declared column. -/
def wfRow (F : Format) (r : List Cell) : Bool :=
decide (r.length = F.cols.length) &&
  (List.zipWith wfCell (F.cols.map Prod.snd) r).all id

/-- A usable format: at least one column, and column names free of the
delimiter and of newlines. -/
def wfFormat (F : Format) : Bool :=
!F.cols.isEmpty &&
  F.cols.all fun p => noChar ';' p.1.data && noChar '\n' p.1.data

/-- Header row of the serialized table. -/
def headerLine (F : Format) : List Char :=
joinSep ';' (F.cols.map fun p => p.1.data)

/-- One serialized data row: the row's fields joined by the delimiter. -/
def encodeRow (F : Format) (r : List Cell) : List Char :=
joinSep ';' (List.zipWith encodeCell (F.cols.map Prod.snd) r)

/-- Serialize a table: header line then one line per row, each line ending
in a newline exactly as the scripts write file.csv. -/
def encodeTable (F : Format) (rows : List (List Cell)) : List Char :=
encodeLines (headerLine F :: rows.map (encodeRow F))

/-- Decode the fields of one row against the declared column types; a row
with the wrong number of fields is a parse error (none), never a partial
row. -/
def decodeFields : List ColType → List (List Char) → Option (List Cell)
  | [], [] => some []
  | t :: ts, f :: fs =>
    match decodeCell t f, decodeFields ts fs with
    | some c, some cs => some (c :: cs)
    | _, _ => none
  | _, _ => none

/-- Decode one line into a row of typed cells. -/
def decodeRow (F : Format) (line : List Char) : Option (List Cell) :=
decodeFields (F.cols.map Prod.snd) (splitSep ';' line)

/-- Decode all data rows; any malformed row fails the whole read. -/
def decodeRows (F : Format) : List (List Char) → Option (List (List Cell))
  | [] => some []
  | l :: ls =>
    match decodeRow F l, decodeRows F ls with
    | some r, some rs => some (r :: rs)
    | _, _ => none

/-- Modelled from the spec: reading back a serialized table (the work
pandas.read_csv does, which is not part of this repository's sources) -
split lines, check the header, then decode every data row with the
format's column types. -/
def decodeTable (F : Format) (cs : List Char) : Option (List (List Cell)) :=
if (decodeLines cs).head? = some (headerLine F) then
  decodeRows F (decodeLines cs).tail
else none

/-- Named-array archive as produced by numpy's savez: a file holding
independently named numeric sequences. -/
structure Npz where
  entries : List (String × List ℚ)

/-- Modelled from the spec: np.savez stores the given named arrays in one
archive file (numpy itself is not part of this repository's sources). -/
def savez (entries : List (String × List ℚ)) : Npz := ⟨entries⟩

/-- Directory of the names contained in the archive (np.load(...).files). -/
def Npz.files (a : Npz) : List String := a.entries.map Prod.fst

/-- Retrieve an array from the loaded archive by its name. -/
def Npz.getArr (a : Npz) (name : String) : Option (List ℚ) :=
(a.entries.find? fun p => p.1 = name).map Prod.snd

/-- The semicolon CSV text hand-written in pandas_examples.py. -/
def csvText : String :=
"id;date;col;value;price;name\n1;2026-02-01;A;10;120;Alpha\n2;2026-02-02;A;20;80;Beta\n3;2026-02-03;B;30;;Gamma\n4;2026-02-04;B;40;200;Delta\n"

/-- Format descriptor of file.csv: semicolon delimiter, header row, an id
column, an ISO date column, text columns and numeric columns of which
price may be blank. -/
def sampleFormat : Format :=
⟨[("id", ColType.numeric), ("date", ColType.date), ("col", ColType.text),
  ("value", ColType.numeric), ("price", ColType.numeric),
  ("name", ColType.text)]⟩

/-- The four records of the sample CSV after read_csv's type coercions. -/
def sampleCSVRows : List (List Cell) :=
[[Cell.num 1, Cell.date 2026 2 1, Cell.str "A", Cell.num 10, Cell.num 120,
  Cell.str "Alpha"],
 [Cell.num 2, Cell.date 2026 2 2, Cell.str "A", Cell.num 20, Cell.num 80,
  Cell.str "Beta"],
 [Cell.num 3, Cell.date 2026 2 3, Cell.str "B", Cell.num 30, Cell.missing,
  Cell.str "Gamma"],
 [Cell.num 4, Cell.date 2026 2 4, Cell.str "B", Cell.num 40, Cell.num 200,
  Cell.str "Delta"]]

/-- In-memory data frame: named columns over rows of typed cells (the id
index column is held by pandas separately and is never missing). -/
structure DF where
  cols : List String
  rows : List (List Cell)
deriving DecidableEq

/-- The loaded sample frame: data columns after taking id as the index. -/
def sampleDF : DF :=
⟨["date", "col", "value", "price", "name"],
  sampleCSVRows.map fun r => r.tail⟩

/-- Does the row contain at least one missing field. -/
def rowHasMissing (r : List Cell) : Bool :=
r.any fun c => decide (c = Cell.missing)

/-- Is every field of the row missing. -/
def rowAllMissing (r : List Cell) : Bool :=
r.all fun c => decide (c = Cell.missing)

/-- Modelled from the spec: DataFrame.dropna(how="any") keeps exactly the
rows that contain no missing field. -/
def dropnaAny (df : DF) : DF :=
⟨df.cols, df.rows.filter fun r => !rowHasMissing r⟩

/-- Modelled from the spec: DataFrame.dropna(how="all") drops a row only
when every one of its fields is missing. -/
def dropnaAll (df : DF) : DF :=
⟨df.cols, df.rows.filter fun r => !rowAllMissing r⟩

/-- Index of a named column (first match). -/
def colIdx : List String → String → ℕ
  | [], _ => 0
  | c :: cs, name => if c = name then 0 else colIdx cs name + 1

/-- Field of a row at a column index (missing when out of range). -/
def getCell (r : List Cell) (i : ℕ) : Cell := r.getD i Cell.missing

/-- Numeric values present in a column, missing entries excluded. -/
def dropMissing (cs : List Cell) : List ℚ :=
cs.filterMap fun c =>
  match c with
  | Cell.num q => some q
  | _ => none

/-- Modelled from the spec: a pandas mean excludes missing values; over a
column with no numeric value present it is itself missing (NaN). -/
def meanCells (cs : List Cell) : Cell :=
if dropMissing cs = [] then Cell.missing
else Cell.num ((dropMissing cs).sum / ((dropMissing cs).length : ℚ))

/-- A cell's value with missing silently replaced by zero. -/
def cellOrZero : Cell → ℚ
  | Cell.num q => q
  | _ => 0

/-- Mean computed after substituting zero for every missing entry (the
treatment the spec insists must not happen). -/
def meanZeroSub (cs : List Cell) : Cell :=
if cs = [] then Cell.missing
else Cell.num ((cs.map cellOrZero).sum / (cs.length : ℚ))

/-- Is this cell of numeric dtype (a number, or NaN in a float column). -/
def cellIsNum : Cell → Bool
  | Cell.num _ => true
  | Cell.missing => true
  | _ => false

/-- A column is numeric when every entry is a number or missing. -/
def colIsNumeric (df : DF) (j : ℕ) : Bool :=
df.rows.all fun r => cellIsNum (getCell r j)

/-- Indices of the numeric columns (what numeric_only=True keeps). -/
def numericCols (df : DF) : List ℕ :=
(List.range df.cols.length).filter fun j => colIsNumeric df j

/-- Deduplicate keeping the first occurrence of each key. -/
def dedupFirst : List Cell → List Cell
  | [] => []
  | k :: ks => k :: (dedupFirst ks).filter fun x => decide (x ≠ k)

/-- Modelled from the spec: groupby(key).mean(numeric_only=True) - for
each key, the mean of every numeric non-key column within the key's
group, missing values excluded and non-numeric columns ignored. -/
def groupbyMean (df : DF) (key : String) : List (Cell × List Cell) :=
(dedupFirst (df.rows.map fun r => getCell r (colIdx df.cols key))).map
  fun k =>
    (k, ((numericCols df).filter fun c => decide (c ≠ colIdx df.cols key)).map
      fun c =>
        meanCells ((df.rows.filter fun r =>
          decide (getCell r (colIdx df.cols key) = k)).map
            fun r => getCell r c))

/-- Cells of one group of rows, projected to one column. -/
def groupCol (df : DF) (key : String) (k : Cell) (target : String) :
    List Cell :=
(df.rows.filter fun r => decide (getCell r (colIdx df.cols key) = k)).map
  fun r => getCell r (colIdx df.cols target)

/-- Pair two columns keeping only the positions where both hold numbers -
the pairwise missing-value exclusion pandas corr performs. -/
def pairUp (xs ys : List Cell) : List (ℚ × ℚ) :=
(xs.zip ys).filterMap fun p =>
  match p.1, p.2 with
  | Cell.num a, Cell.num b => some (a, b)
  | _, _ => none

/-- Mean of the first components. -/
def meanFst (ps : List (ℚ × ℚ)) : ℚ := (ps.map Prod.fst).sum / (ps.length : ℚ)

/-- Mean of the second components. -/
def meanSnd (ps : List (ℚ × ℚ)) : ℚ := (ps.map Prod.snd).sum / (ps.length : ℚ)

/-- Centered product sum (covariance numerator). -/
def sampleCov (ps : List (ℚ × ℚ)) : ℚ :=
(ps.map fun p => (p.1 - meanFst ps) * (p.2 - meanSnd ps)).sum

/-- Centered square sum of the first components. -/
def sampleVarX (ps : List (ℚ × ℚ)) : ℚ :=
(ps.map fun p => (p.1 - meanFst ps) ^ 2).sum

/-- Centered square sum of the second components. -/
def sampleVarY (ps : List (ℚ × ℚ)) : ℚ :=
(ps.map fun p => (p.2 - meanSnd ps) ^ 2).sum

/-- Modelled from the spec: the squared Pearson correlation coefficient
r^2 over exact rationals; none when a variance is zero (insufficient
data).  Together with the sign of sampleCov it determines r. -/
def corrRsq (ps : List (ℚ × ℚ)) : Option ℚ :=
if sampleVarX ps = 0 ∨ sampleVarY ps = 0 then none
else some (sampleCov ps ^ 2 / (sampleVarX ps * sampleVarY ps))

/-- Modelled from the spec: the least-squares slope scipy.stats.linregress
returns. -/
def lrSlope (ps : List (ℚ × ℚ)) : ℚ := sampleCov ps / sampleVarX ps

/-- Modelled from the spec: the least-squares intercept
scipy.stats.linregress returns. -/
def lrIntercept (ps : List (ℚ × ℚ)) : ℚ :=
meanSnd ps - lrSlope ps * meanFst ps

/-- Python del L[i]: remove the element at a valid index. -/
def delAt (l : List α) (i : ℕ) : List α := l.take i ++ l.drop (i + 1)

/-- Python list.remove(v): delete the first occurrence of the value;
ValueError (none) when the value is absent. -/
def removeFirst? [DecidableEq α] (l : List α) (v : α) : Option (List α) :=
if v ∈ l then some (l.erase v) else none

/-- Python list.pop(): the last element together with the list without it;
IndexError (none) on an empty list. -/
def popLast? (l : List α) : Option (α × List α) :=
match l.getLast? with
| some x => some (x, l.dropLast)
| none => none

/-- The list comprehension filter of python_examples.py: keep the elements
different from v. -/
def pyFilterNe [DecidableEq α] (l : List α) (v : α) : List α :=
l.filter fun x => decide (x ≠ v)

/-- Selection filter: keep only the elements equal to v. -/
def pyFilterEq [DecidableEq α] (l : List α) (v : α) : List α :=
l.filter fun x => decide (x = v)

/-- Working directory as a mapping from filename to text content. -/
abbrev FileStore := List (String × String)

/-- Model of open(name, "w") followed by write: unconditionally overwrite
any prior file of that name. -/
def writeTextFile (fs : FileStore) (name content : String) : FileStore :=
(name, content) :: fs.filter fun p => decide (p.1 ≠ name)

/-- Model of open(name, "r") followed by read: the stored content, or a
not-found error (none). -/
def readTextFile (fs : FileStore) (name : String) : Option String :=
(fs.find? fun p => decide (p.1 = name)).map Prod.snd

/-- Comparison of a cell against a numeric threshold: true only when the
cell holds a number strictly greater; a missing value never satisfies the
predicate, as in the boolean filter df["price"] > 100. -/
def cellGT (c : Cell) (q : ℚ) : Bool :=
match c with
| Cell.num x => decide (q < x)
| _ => false

/-- Keep the rows satisfying a boolean predicate (the row-selection half
of DataFrame.loc). -/
def filterRows (df : DF) (p : List Cell → Bool) : DF :=
⟨df.cols, df.rows.filter p⟩

/-- Project a frame to the named columns (the column-selection half of
DataFrame.loc). -/
def selectCols (df : DF) (names : List String) : DF :=
⟨names, df.rows.map fun r => names.map fun n => getCell r (colIdx df.cols n)⟩

/-- The sample frame with record 3 (the blank-price row) dropped. -/
def sampleDFdrop : DF := ⟨sampleDF.cols, delAt sampleDF.rows 2⟩

/-- The value column of the sample frame. -/
def sampleValueCol : List Cell := sampleDF.rows.map fun r => getCell r 2

/-- The price column of the sample frame (record 3 missing). -/
def samplePriceCol : List Cell := sampleDF.rows.map fun r => getCell r 3

/-- The arrays numpy_examples.py stores with np.savez: np.arange(5) and
np.linspace(0, 1, 3). -/
def sampleNpzEntries : List (String × List ℚ) :=
[("name1", [0, 1, 2, 3, 4]), ("name2", [0, 1/2, 1])]

/-- The two-column frame of C4's records (A,10),(A,20),(B,30),(B,40). -/
def pairsFrame : DF :=
⟨["col", "value"],
  [[Cell.str "A", Cell.num 10], [Cell.str "A", Cell.num 20],
   [Cell.str "B", Cell.num 30], [Cell.str "B", Cell.num 40]]⟩

theorem digit_facts :
    ∀ d < 10, charDigit (digitChar d) = d ∧ (digitChar d).isDigit = true ∧
      digitChar d ≠ ';' ∧ digitChar d ≠ '\n' ∧ digitChar d ≠ '-' := by
  decide

theorem natDigitsRev_eq_digits :
    ∀ fuel n : ℕ, n ≤ fuel → natDigitsRev fuel n = Nat.digits 10 n := by
  intro fuel
  induction fuel with
  | zero =>
    intro n hn
    rw [Nat.le_zero.mp hn, Nat.digits_zero]
    rfl
  | succ fuel ih =>
    intro n hn
    cases n with
    | zero =>
      rw [Nat.digits_zero]
      rfl
    | succ m =>
      have hdiv : (m + 1) / 10 ≤ fuel := by
        have := Nat.div_lt_self (Nat.succ_pos m) (by norm_num : 1 < 10)
        omega
      rw [natDigitsRev, ih _ hdiv,
        Nat.digits_def' (by norm_num : 1 < 10) (Nat.succ_pos m)]

theorem renderNat_eq (n : ℕ) :
    renderNat n =
      if n = 0 then [digitChar 0]
      else (Nat.digits 10 n).reverse.map digitChar := by
  rw [renderNat]
  by_cases h : n = 0
  · rw [if_pos h, if_pos h]
  · rw [if_neg h, if_neg h, natDigitsRev_eq_digits n n le_rfl]

theorem mem_renderNat {n : ℕ} {c : Char} (hc : c ∈ renderNat n) :
    ∃ d, d < 10 ∧ c = digitChar d := by
  rw [renderNat_eq] at hc
  by_cases h : n = 0
  · subst h
    rw [if_pos rfl] at hc
    exact ⟨0, by norm_num, List.mem_singleton.mp hc⟩
  · rw [if_neg h] at hc
    rcases List.mem_map.mp hc with ⟨d, hd, rfl⟩
    exact ⟨d, Nat.digits_lt_base (by norm_num) (List.mem_reverse.mp hd), rfl⟩

theorem renderNat_ne_nil (n : ℕ) : renderNat n ≠ [] := by
  rw [renderNat_eq]
  by_cases h : n = 0
  · simp [h]
  · rw [if_neg h]
    simp [Nat.digits_ne_nil_iff_ne_zero.mpr h]

theorem renderNat_all_digits (n : ℕ) : (renderNat n).all Char.isDigit = true := by
  rw [List.all_eq_true]
  intro c hc
  rcases mem_renderNat hc with ⟨d, hd, rfl⟩
  exact ((digit_facts d hd).2.1)

theorem map_charDigit_digitChar (l : List ℕ) (h : ∀ d ∈ l, d < 10) :
    (l.map digitChar).map charDigit = l := by
  induction l with
  | nil => rfl
  | cons d l ih =>
    simp only [List.map_cons, List.cons.injEq]
    exact ⟨(digit_facts d (h d (by simp))).1, ih fun x hx => h x (by simp [hx])⟩

theorem ofDigits_renderNat (n : ℕ) :
    Nat.ofDigits 10 (((renderNat n).map charDigit).reverse) = n := by
  by_cases h : n = 0
  · subst h; decide
  · rw [renderNat_eq, if_neg h, map_charDigit_digitChar _
      (fun d hd => Nat.digits_lt_base (by norm_num) (List.mem_reverse.mp hd)),
      List.reverse_reverse, Nat.ofDigits_digits]

theorem parseNat?_renderNat (n : ℕ) : parseNat? (renderNat n) = some n := by
  rw [parseNat?, if_pos ⟨renderNat_ne_nil n, renderNat_all_digits n⟩,
    ofDigits_renderNat]

theorem ofDigits_replicate_zero (k : ℕ) :
    Nat.ofDigits 10 (List.replicate k 0) = 0 := by
  induction k with
  | zero => rfl
  | succ k ih => simp [List.replicate_succ, Nat.ofDigits_cons, ih]

theorem padNat_all_digits (w n : ℕ) : (padNat w n).all Char.isDigit = true := by
  rw [List.all_eq_true]
  intro c hc
  rcases List.mem_append.mp hc with h | h
  · rw [List.eq_of_mem_replicate h]
    exact (digit_facts 0 (by norm_num)).2.1
  · exact List.all_eq_true.mp (renderNat_all_digits n) c h

theorem padNat_ne_nil (w n : ℕ) : padNat w n ≠ [] := by
  intro h
  exact renderNat_ne_nil n (List.append_eq_nil.mp h).2

theorem parseNat?_padNat (w n : ℕ) : parseNat? (padNat w n) = some n := by
  rw [parseNat?, if_pos ⟨padNat_ne_nil w n, padNat_all_digits w n⟩, padNat,
    List.map_append, List.map_replicate, List.reverse_append,
    List.reverse_replicate, Nat.ofDigits_append, ofDigits_renderNat]
  have h0 : charDigit (digitChar 0) = 0 := (digit_facts 0 (by norm_num)).1
  rw [h0, ofDigits_replicate_zero]
  simp

theorem mem_padNat {w n : ℕ} {c : Char} (hc : c ∈ padNat w n) :
    ∃ d, d < 10 ∧ c = digitChar d := by
  rcases List.mem_append.mp hc with h | h
  · exact ⟨0, by norm_num, List.eq_of_mem_replicate h⟩
  · exact mem_renderNat h

theorem renderInt_ne_nil (i : ℤ) : renderInt i ≠ [] := by
  unfold renderInt
  by_cases h : i < 0
  · simp [h]
  · rw [if_neg h]; exact renderNat_ne_nil _

theorem parseInt?_renderInt (i : ℤ) : parseInt? (renderInt i) = some i := by
  by_cases h : i < 0
  · rw [renderInt, if_pos h, parseInt?]
    simp only [List.head?_cons, reduceIte, List.tail_cons, parseNat?_renderNat]
    show some (-(i.natAbs : ℤ)) = some i
    rw [Int.ofNat_natAbs_of_nonpos (le_of_lt h), neg_neg]
  · rw [renderInt, if_neg h]
    obtain ⟨c, cs, hcons⟩ := List.exists_cons_of_ne_nil (renderNat_ne_nil i.natAbs)
    have hcd : ∃ d, d < 10 ∧ c = digitChar d := by
      apply mem_renderNat (n := i.natAbs)
      rw [hcons]; exact List.mem_cons_self c cs
    rcases hcd with ⟨d, hd, rfl⟩
    rw [parseInt?, hcons, if_neg (by
      simp only [List.head?_cons, Option.some.injEq]
      exact (digit_facts d hd).2.2.2.2), ← hcons, parseNat?_renderNat]
    show some ((i.natAbs : ℤ)) = some i
    rw [Int.natAbs_of_nonneg (not_lt.mp h)]

theorem splitSep_ne_nil (sep : Char) : ∀ cs, splitSep sep cs ≠ []
  | [] => by simp [splitSep]
  | c :: cs => by
    rw [splitSep]
    rcases hsp : splitSep sep cs with _ | ⟨seg, rest⟩
    · simp
    · by_cases hc : c = sep <;> simp [hc]

theorem splitSep_sep_cons (sep : Char) (cs : List Char) :
    splitSep sep (sep :: cs) = [] :: splitSep sep cs := by
  rw [splitSep]
  rcases hsp : splitSep sep cs with _ | ⟨seg, rest⟩
  · exact absurd hsp (splitSep_ne_nil sep cs)
  · simp

theorem splitSep_append {sep : Char} {l : List Char} (h : sep ∉ l)
    (cs : List Char) :
    splitSep sep (l ++ cs) =
      (l ++ (splitSep sep cs).headD []) :: (splitSep sep cs).tail := by
  induction l with
  | nil =>
    rcases hsp : splitSep sep cs with _ | ⟨seg, rest⟩
    · exact absurd hsp (splitSep_ne_nil sep cs)
    · simp [hsp]
  | cons c l ih =>
    have hc : c ≠ sep := fun hcs => h (hcs ▸ List.mem_cons_self c l)
    have hl : sep ∉ l := fun hm => h (List.mem_cons_of_mem c hm)
    rw [List.cons_append, splitSep, ih hl]
    rcases hsp : splitSep sep cs with _ | ⟨seg, rest⟩
    · exact absurd hsp (splitSep_ne_nil sep cs)
    · simp [if_neg hc]

theorem splitSep_joinSep (sep : Char) :
    ∀ xss : List (List Char), xss ≠ [] → (∀ xs ∈ xss, sep ∉ xs) →
      splitSep sep (joinSep sep xss) = xss := by
  intro xss
  induction xss with
  | nil => intro h; exact absurd rfl h
  | cons x xss ih =>
    intro _ hsep
    have hx : sep ∉ x := hsep x (List.mem_cons_self x xss)
    cases xss with
    | nil =>
      have hx2 : joinSep sep [x] = x ++ [] := by rw [joinSep, List.append_nil]
      rw [hx2, splitSep_append hx]
      simp [splitSep]
    | cons y ys =>
      have hrest : ∀ xs ∈ y :: ys, sep ∉ xs :=
        fun xs hxs => hsep xs (List.mem_cons_of_mem x hxs)
      have ihy := ih (List.cons_ne_nil y ys) hrest
      rw [joinSep, splitSep_append hx, splitSep_sep_cons, ihy]
      simp

theorem splitSep_encodeLines (ls : List (List Char))
    (h : ∀ l ∈ ls, '\n' ∉ l) :
    splitSep '\n' (encodeLines ls) = ls ++ [[]] := by
  induction ls with
  | nil => rfl
  | cons l ls ih =>
    have hl : '\n' ∉ l := h l (List.mem_cons_self l ls)
    have hrest : ∀ x ∈ ls, '\n' ∉ x :=
      fun x hx => h x (List.mem_cons_of_mem l hx)
    have ihr := ih hrest
    show splitSep '\n' (l ++ '\n' :: encodeLines ls) = (l :: ls) ++ [[]]
    rw [splitSep_append hl, splitSep_sep_cons, ihr]
    simp

theorem decodeLines_encodeLines (ls : List (List Char))
    (h : ∀ l ∈ ls, '\n' ∉ l) :
    decodeLines (encodeLines ls) = ls := by
  rw [decodeLines, splitSep_encodeLines ls h]
  simp

theorem not_mem_of_noChar {c : Char} {l : List Char}
    (h : noChar c l = true) : c ∉ l := by
  intro hc
  exact (of_decide_eq_true (List.all_eq_true.mp h c hc)) rfl

theorem mem_joinSep {sep c : Char} :
    ∀ (xss : List (List Char)), c ∈ joinSep sep xss →
      c = sep ∨ ∃ xs ∈ xss, c ∈ xs := by
  intro xss
  induction xss with
  | nil => intro h; simp [joinSep] at h
  | cons x xss ih =>
    cases xss with
    | nil =>
      intro h
      rw [joinSep] at h
      exact Or.inr ⟨x, List.mem_cons_self x [], h⟩
    | cons y ys =>
      intro h
      rw [joinSep] at h
      rcases List.mem_append.mp h with h | h
      · exact Or.inr ⟨x, List.mem_cons_self x (y :: ys), h⟩
      · rcases List.mem_cons.mp h with h | h
        · exact Or.inl h
        · rcases ih h with h | ⟨xs, hxs, hc⟩
          · exact Or.inl h
          · exact Or.inr ⟨xs, List.mem_cons_of_mem x hxs, hc⟩

theorem mem_renderInt {i : ℤ} {c : Char} (h : c ∈ renderInt i) :
    c = '-' ∨ ∃ d, d < 10 ∧ c = digitChar d := by
  unfold renderInt at h
  by_cases hi : i < 0
  · rw [if_pos hi] at h
    rcases List.mem_cons.mp h with h | h
    · exact Or.inl h
    · exact Or.inr (mem_renderNat h)
  · rw [if_neg hi] at h
    exact Or.inr (mem_renderNat h)

theorem mem_encodeDateCell {y m d : ℕ} {c : Char}
    (h : c ∈ encodeDateCell y m d) :
    c = '-' ∨ ∃ k, k < 10 ∧ c = digitChar k := by
  rcases mem_joinSep _ h with h | ⟨xs, hxs, hc⟩
  · exact Or.inl h
  · simp only [List.mem_cons, List.not_mem_nil, or_false] at hxs
    rcases hxs with rfl | rfl | rfl <;> exact Or.inr (mem_padNat hc)

theorem encodeCell_no_special {t : ColType} {cl : Cell}
    (h : wfCell t cl = true) :
    ';' ∉ encodeCell t cl ∧ '\n' ∉ encodeCell t cl := by
  cases t with
  | text =>
    cases cl with
    | str s =>
      simp only [wfCell, Bool.and_eq_true] at h
      exact ⟨not_mem_of_noChar h.1, not_mem_of_noChar h.2⟩
    | num q => simp [wfCell] at h
    | date y m d => simp [wfCell] at h
    | missing => simp [wfCell] at h
  | numeric =>
    cases cl with
    | str s => simp [wfCell] at h
    | num q =>
      show ';' ∉ renderInt q.num ∧ '\n' ∉ renderInt q.num
      constructor <;> intro hc <;>
        rcases mem_renderInt hc with h1 | ⟨d, hd, h1⟩
      · exact absurd h1 (by decide)
      · exact absurd h1.symm (digit_facts d hd).2.2.1
      · exact absurd h1 (by decide)
      · exact absurd h1.symm (digit_facts d hd).2.2.2.1
    | date y m d => simp [wfCell] at h
    | missing => exact ⟨List.not_mem_nil ';', List.not_mem_nil '\n'⟩
  | date =>
    cases cl with
    | str s => simp [wfCell] at h
    | num q => simp [wfCell] at h
    | date y m d =>
      show ';' ∉ encodeDateCell y m d ∧ '\n' ∉ encodeDateCell y m d
      constructor <;> intro hc <;>
        rcases mem_encodeDateCell hc with h1 | ⟨k, hk, h1⟩
      · exact absurd h1 (by decide)
      · exact absurd h1.symm (digit_facts k hk).2.2.1
      · exact absurd h1 (by decide)
      · exact absurd h1.symm (digit_facts k hk).2.2.2.1
    | missing => simp [wfCell] at h

theorem ratCast_num_of_den_one {q : ℚ} (h : q.den = 1) : ((q.num : ℚ)) = q := by
  conv_rhs => rw [← Rat.num_div_den q, h]
  simp

theorem splitSep_encodeDateCell (y m d : ℕ) :
    splitSep '-' (encodeDateCell y m d) =
      [padNat 4 y, padNat 2 m, padNat 2 d] := by
  apply splitSep_joinSep
  · simp
  · intro xs hxs hmem
    have hdig : ∃ k, k < 10 ∧ '-' = digitChar k := by
      simp only [List.mem_cons, List.not_mem_nil, or_false] at hxs
      rcases hxs with rfl | rfl | rfl <;> exact mem_padNat hmem
    rcases hdig with ⟨k, hk, hkk⟩
    exact (digit_facts k hk).2.2.2.2 hkk.symm

theorem decodeCell_encodeCell {t : ColType} {cl : Cell}
    (h : wfCell t cl = true) :
    decodeCell t (encodeCell t cl) = some cl := by
  cases t with
  | text =>
    cases cl with
    | str s => rfl
    | num q => simp [wfCell] at h
    | date y m d => simp [wfCell] at h
    | missing => simp [wfCell] at h
  | numeric =>
    cases cl with
    | str s => simp [wfCell] at h
    | num q =>
      have hden : q.den = 1 := of_decide_eq_true (by simpa [wfCell] using h)
      show decodeCell ColType.numeric (renderInt q.num) = some (Cell.num q)
      simp only [decodeCell]
      rw [if_neg (renderInt_ne_nil q.num), parseInt?_renderInt]
      show some (Cell.num ((q.num : ℚ))) = some (Cell.num q)
      rw [ratCast_num_of_den_one hden]
    | date y m d => simp [wfCell] at h
    | missing => rfl
  | date =>
    cases cl with
    | str s => simp [wfCell] at h
    | num q => simp [wfCell] at h
    | date y m d =>
      show parseDate? (encodeDateCell y m d) = some (Cell.date y m d)
      rw [parseDate?, splitSep_encodeDateCell]
      simp [parseNat?_padNat]
    | missing => simp [wfCell] at h

theorem zipWith_encodeCell_no_special :
    ∀ (ts : List ColType) (r : List Cell),
      (List.zipWith wfCell ts r).all id = true →
      ∀ f ∈ List.zipWith encodeCell ts r, ';' ∉ f ∧ '\n' ∉ f := by
  intro ts
  induction ts with
  | nil => intro r _ f hf; simp at hf
  | cons t ts ih =>
    intro r hwf f hf
    cases r with
    | nil => simp at hf
    | cons c r =>
      simp only [List.zipWith_cons_cons, List.all_cons, Bool.and_eq_true,
        id] at hwf
      rcases List.mem_cons.mp hf with rfl | hf
      · exact encodeCell_no_special hwf.1
      · exact ih r hwf.2 f hf

theorem decodeFields_encode :
    ∀ (ts : List ColType) (r : List Cell), r.length = ts.length →
      (List.zipWith wfCell ts r).all id = true →
      decodeFields ts (List.zipWith encodeCell ts r) = some r := by
  intro ts
  induction ts with
  | nil =>
    intro r hlen _
    cases r with
    | nil => rfl
    | cons c r => simp at hlen
  | cons t ts ih =>
    intro r hlen hwf
    cases r with
    | nil => simp at hlen
    | cons c r =>
      simp only [List.zipWith_cons_cons, List.all_cons, Bool.and_eq_true,
        id] at hwf
      simp only [List.zipWith_cons_cons, decodeFields,
        decodeCell_encodeCell hwf.1,
        ih r (by simpa using hlen) hwf.2]

theorem decodeRow_encodeRow {F : Format} {r : List Cell}
    (hF : wfFormat F = true) (hr : wfRow F r = true) :
    decodeRow F (encodeRow F r) = some r := by
  rw [wfRow, Bool.and_eq_true] at hr
  have hlen : r.length = F.cols.length := of_decide_eq_true hr.1
  have hcolsne : F.cols ≠ [] := by
    rw [wfFormat, Bool.and_eq_true] at hF
    intro hc
    rw [hc] at hF
    simp at hF
  have hrne : r ≠ [] := by
    intro h0
    rw [h0] at hlen
    simp only [List.length_nil] at hlen
    exact hcolsne (List.length_eq_zero.mp hlen.symm)
  have hne : List.zipWith encodeCell (F.cols.map Prod.snd) r ≠ [] := by
    rcases List.exists_cons_of_ne_nil hcolsne with ⟨p, ps, hcols⟩
    rcases List.exists_cons_of_ne_nil hrne with ⟨c, cs, hrr⟩
    rw [hcols, hrr]
    simp
  rw [encodeRow, decodeRow,
    splitSep_joinSep ';' _ hne
      (fun f hf => (zipWith_encodeCell_no_special _ r hr.2 f hf).1)]
  exact decodeFields_encode _ r (by simpa using hlen) hr.2

theorem headerLine_no_newline {F : Format} (hF : wfFormat F = true) :
    '\n' ∉ headerLine F := by
  rw [wfFormat, Bool.and_eq_true] at hF
  intro hc
  rcases mem_joinSep _ hc with h | ⟨xs, hxs, hcx⟩
  · exact absurd h (by decide)
  · rcases List.mem_map.mp hxs with ⟨p, hp, rfl⟩
    have hh := List.all_eq_true.mp hF.2 p hp
    rw [Bool.and_eq_true] at hh
    exact not_mem_of_noChar hh.2 hcx

theorem encodeRow_no_newline {F : Format} {r : List Cell}
    (hr : wfRow F r = true) : '\n' ∉ encodeRow F r := by
  rw [wfRow, Bool.and_eq_true] at hr
  intro hc
  rcases mem_joinSep _ hc with h | ⟨xs, hxs, hcx⟩
  · exact absurd h (by decide)
  · exact (zipWith_encodeCell_no_special _ r hr.2 xs hxs).2 hcx

theorem decodeRows_encode {F : Format} (hF : wfFormat F = true) :
    ∀ rows : List (List Cell), (∀ r ∈ rows, wfRow F r = true) →
      decodeRows F (rows.map (encodeRow F)) = some rows := by
  intro rows
  induction rows with
  | nil => intro _; rfl
  | cons r rows ih =>
    intro h
    rw [List.map_cons]
    simp only [decodeRows,
      decodeRow_encodeRow hF (h r (List.mem_cons_self r rows)),
      ih fun x hx => h x (List.mem_cons_of_mem r hx)]

theorem decodeTable_encodeTable {F : Format} {rows : List (List Cell)}
    (hF : wfFormat F = true) (hrows : ∀ r ∈ rows, wfRow F r = true) :
    decodeTable F (encodeTable F rows) = some rows := by
  have hlines : ∀ l ∈ headerLine F :: rows.map (encodeRow F), '\n' ∉ l := by
    intro l hl
    rcases List.mem_cons.mp hl with rfl | hl
    · exact headerLine_no_newline hF
    · rcases List.mem_map.mp hl with ⟨r, hr, rfl⟩
      exact encodeRow_no_newline (hrows r hr)
  rw [decodeTable, encodeTable, decodeLines_encodeLines _ hlines]
  simp only [List.head?_cons, List.tail_cons, if_pos rfl]
  exact decodeRows_encode hF rows hrows

theorem getArr_savez {entries : List (String × List ℚ)}
    (hnd : (entries.map Prod.fst).Nodup) :
    ∀ p ∈ entries, (savez entries).getArr p.1 = some p.2 := by
  induction entries with
  | nil => intro p hp; simp at hp
  | cons q entries ih =>
    intro p hp
    rw [List.map_cons, List.nodup_cons] at hnd
    rcases List.mem_cons.mp hp with rfl | hp
    · simp [savez, Npz.getArr]
    · have hne : (q.1 = p.1) = False := by
        simp only [eq_iff_iff, iff_false]
        intro he
        exact hnd.1 (he ▸ List.mem_map_of_mem Prod.fst hp)
      have := ih hnd.2 p hp
      simp only [savez, Npz.getArr, List.find?] at this ⊢
      rw [decide_eq_false (by rw [hne]; exact id)]
      exact this

theorem dropMissing_map_num (l : List ℚ) :
    dropMissing (l.map Cell.num) = l := by
  induction l with
  | nil => rfl
  | cons q l ih =>
    rw [List.map_cons, dropMissing, List.filterMap_cons]
    rw [dropMissing] at ih
    simp [ih]

theorem dropMissing_one_missing (as bs : List ℚ) :
    dropMissing (as.map Cell.num ++ Cell.missing :: bs.map Cell.num) =
      as ++ bs := by
  rw [dropMissing, List.filterMap_append, List.filterMap_cons]
  show dropMissing (as.map Cell.num) ++ dropMissing (bs.map Cell.num)
      = as ++ bs
  rw [dropMissing_map_num, dropMissing_map_num]

theorem meanCells_one_missing (as bs : List ℚ) :
    meanCells (as.map Cell.num ++ Cell.missing :: bs.map Cell.num) =
      meanCells ((as ++ bs).map Cell.num) := by
  rw [meanCells, meanCells, dropMissing_one_missing,
    dropMissing_map_num]

theorem map_cellOrZero_num (l : List ℚ) :
    l.map (cellOrZero ∘ Cell.num) = l := by
  induction l with
  | nil => rfl
  | cons q l ih => rw [List.map_cons, ih]; rfl

theorem map_cellOrZero_one_missing (as bs : List ℚ) :
    ((as.map Cell.num ++ Cell.missing :: bs.map Cell.num).map
      cellOrZero).sum = (as ++ bs).sum := by
  rw [List.map_append, List.map_cons, List.map_map, List.map_map,
    map_cellOrZero_num, map_cellOrZero_num, List.sum_append,
    List.sum_cons, List.sum_append]
  show as.sum + (0 + bs.sum) = as.sum + bs.sum
  rw [zero_add]

theorem div_ne_div_succ {S : ℚ} {n : ℕ} (hS : S ≠ 0) (hn : 0 < n) :
    S / (n : ℚ) ≠ S / ((n : ℚ) + 1) := by
  intro h
  have hn0 : (n : ℚ) ≠ 0 := Nat.cast_ne_zero.mpr hn.ne'
  have hn1 : (n : ℚ) + 1 ≠ 0 := by positivity
  rw [div_eq_div_iff hn0 hn1] at h
  have h2 : (n : ℚ) + 1 = (n : ℚ) := mul_left_cancel₀ hS h
  linarith

theorem meanCells_ne_zeroSub (as bs : List ℚ)
    (hsum : (as ++ bs).sum ≠ 0) :
    meanCells (as.map Cell.num ++ Cell.missing :: bs.map Cell.num) ≠
      meanZeroSub (as.map Cell.num ++ Cell.missing :: bs.map Cell.num) := by
  have hne : as ++ bs ≠ [] := by
    intro h0
    rw [h0] at hsum
    exact hsum rfl
  have hlen : (as.map Cell.num ++ Cell.missing :: bs.map Cell.num).length
      = (as ++ bs).length + 1 := by
    simp
    omega
  rw [meanCells, dropMissing_one_missing, if_neg hne, meanZeroSub,
    if_neg (by simp), map_cellOrZero_one_missing, hlen]
  intro hEq
  rw [Cell.num.injEq] at hEq
  have hpos : 0 < (as ++ bs).length := List.length_pos.mpr hne
  refine div_ne_div_succ hsum hpos ?_
  rw [hEq]
  push_cast
  ring_nf

theorem pairUp_cons (x a : Cell) (xs as : List Cell) :
    pairUp (x :: xs) (a :: as) =
      (match x, a with
       | Cell.num p, Cell.num q => [(p, q)]
       | _, _ => []) ++ pairUp xs as := by
  cases x <;> cases a <;> simp [pairUp, List.filterMap_cons]

theorem pairUp_map_num (xs ys : List ℚ) :
    pairUp (xs.map Cell.num) (ys.map Cell.num) = xs.zip ys := by
  induction xs generalizing ys with
  | nil => rfl
  | cons x xs ih =>
    cases ys with
    | nil => rfl
    | cons y ys =>
      rw [List.map_cons, List.map_cons, pairUp_cons, ih ys,
        List.zip_cons_cons]
      rfl

theorem pairUp_append (xs ys as bs : List Cell)
    (h : xs.length = as.length) :
    pairUp (xs ++ ys) (as ++ bs) = pairUp xs as ++ pairUp ys bs := by
  induction xs generalizing as with
  | nil =>
    cases as with
    | nil => rfl
    | cons a as => simp at h
  | cons x xs ih =>
    cases as with
    | nil => simp at h
    | cons a as =>
      rw [List.cons_append, List.cons_append, pairUp_cons, pairUp_cons,
        ih as (by simpa using h), List.append_assoc]

theorem pairUp_one_missing (xs ys us vs : List ℚ) (x : ℚ)
    (hlen : xs.length = us.length) :
    pairUp (xs.map Cell.num ++ Cell.num x :: ys.map Cell.num)
        (us.map Cell.num ++ Cell.missing :: vs.map Cell.num) =
      pairUp ((xs ++ ys).map Cell.num) ((us ++ vs).map Cell.num) := by
  rw [pairUp_append _ _ _ _ (by simpa using hlen), pairUp_cons,
    List.map_append, List.map_append,
    pairUp_append _ _ _ _ (by simpa using hlen),
    pairUp_map_num, pairUp_map_num]
  rfl

/-- The serialized sample table is character for character the csv_text
string hand-written in pandas_examples.py. -/
theorem encodeTable_sample :
    encodeTable sampleFormat sampleCSVRows = csvText.data := by
  with_unfolding_all decide

/-- C1: for every Dataset and supported format - a well-formed semicolon
CSV format (header row, typed columns including a date column and numeric
columns) with rows matching it, or the named-array archive with distinct
names - decoding the encoding reproduces the Dataset up to the format's
type coercions: the typed CSV rows round-trip exactly, every stored array
is retrievable by its name and the archive's directory lists exactly the
names, and a blank field of a numeric column decodes to the explicit
missing marker: it is a successful decode (never an error) and it is not
the number zero. -/
theorem csv_npz_roundtrip_c1 (F : Format) (rows : List (List Cell))
    (hF : wfFormat F = true) (hrows : ∀ r ∈ rows, wfRow F r = true)
    (entries : List (String × List ℚ))
    (hnd : (entries.map Prod.fst).Nodup) :
    decodeTable F (encodeTable F rows) = some rows ∧
      (savez entries).files = entries.map Prod.fst ∧
      (∀ p ∈ entries, (savez entries).getArr p.1 = some p.2) ∧
      decodeCell ColType.numeric [] = some Cell.missing ∧
      Cell.missing ≠ Cell.num 0 :=
  ⟨decodeTable_encodeTable hF hrows, rfl, getArr_savez hnd, rfl, by decide⟩

/-- Witness for C1 at the repository's concrete data: the sample CSV of
pandas_examples.py and the named arrays numpy_examples.py saves. -/
theorem csv_npz_roundtrip_c1_witness :
    decodeTable sampleFormat (encodeTable sampleFormat sampleCSVRows) =
        some sampleCSVRows ∧
      (savez sampleNpzEntries).files = sampleNpzEntries.map Prod.fst ∧
      (∀ p ∈ sampleNpzEntries,
        (savez sampleNpzEntries).getArr p.1 = some p.2) ∧
      decodeCell ColType.numeric [] = some Cell.missing ∧
      Cell.missing ≠ Cell.num 0 :=
  csv_npz_roundtrip_c1 sampleFormat sampleCSVRows
    (by with_unfolding_all decide) (by with_unfolding_all decide)
    sampleNpzEntries (by with_unfolding_all decide)

/-- C2 counterexample: the del snippet of python_examples.py mutates the
freshly created dataset [10,20,30,40] - after the operation the
collection's elements are no longer those it was created with, so the
claim that no Dataset is ever mutated after creation fails on this input. -/
theorem dataset_mutation_c2_cex :
    delAt [10, 20, 30, 40] 1 ≠ [10, 20, 30, 40] := by decide

/-- C2 amended: Datasets are never mutated after creation except by the
destructive list-edit snippets of python_examples.py - del, remove and
pop each change the list in place (the collection afterwards differs from
the one created), while the comprehension filter only computes a fresh
list. -/
theorem dataset_mutation_c2_amended :
    delAt [10, 20, 30, 40] 1 = [10, 30, 40] ∧
      [10, 30, 40] ≠ [10, 20, 30, 40] ∧
      removeFirst? [1, 2, 2, 3] 2 = some [1, 2, 3] ∧
      [1, 2, 3] ≠ [1, 2, 2, 3] ∧
      popLast? ["a", "b", "c"] = some ("c", ["a", "b"]) ∧
      ["a", "b"] ≠ ["a", "b", "c"] ∧
      pyFilterNe [1, 2, 2, 3, 2, 4] 2 = [1, 3, 4] := by decide

/-- C3 counterexample: over the one-missing, otherwise-numeric column
[1, -1, missing] the missing-excluding mean and the zero-substituted mean
coincide (both are 0), so the claim's universal clause that they never
coincide is false at this input. -/
theorem missing_zero_c3_cex :
    meanCells [Cell.num 1, Cell.num (-1), Cell.missing] =
      meanZeroSub [Cell.num 1, Cell.num (-1), Cell.missing] := by
  with_unfolding_all decide

/-- C3 amended: for a Dataset with exactly one missing numeric field in an
otherwise-numeric column, the mean and the (pairwise-excluding)
correlation over that column equal those computed after dropping that
record; they differ from the zero-substituted results whenever the
present values do not sum to zero (for the mean) - in degenerate columns
whose present values sum to zero the two means can coincide - and on the
repository's sample table the per-group means of the price column equal
those after dropping record 3, while the value/price correlation differs
from its zero-substituted variant. -/
theorem missing_exclusion_c3 (as bs : List ℚ)
    (hsum : (as ++ bs).sum ≠ 0)
    (xs ys us vs : List ℚ) (x : ℚ) (hlen : xs.length = us.length) :
    meanCells (as.map Cell.num ++ Cell.missing :: bs.map Cell.num) =
        meanCells ((as ++ bs).map Cell.num) ∧
      meanCells (as.map Cell.num ++ Cell.missing :: bs.map Cell.num) ≠
        meanZeroSub (as.map Cell.num ++ Cell.missing :: bs.map Cell.num) ∧
      corrRsq (pairUp (xs.map Cell.num ++ Cell.num x :: ys.map Cell.num)
          (us.map Cell.num ++ Cell.missing :: vs.map Cell.num)) =
        corrRsq (pairUp ((xs ++ ys).map Cell.num)
          ((us ++ vs).map Cell.num)) ∧
      meanCells (groupCol sampleDF "col" (Cell.str "B") "price") =
        meanCells (groupCol sampleDFdrop "col" (Cell.str "B") "price") ∧
      meanCells (groupCol sampleDF "col" (Cell.str "A") "price") =
        meanCells (groupCol sampleDFdrop "col" (Cell.str "A") "price") ∧
      corrRsq (pairUp sampleValueCol samplePriceCol) ≠
        corrRsq (sampleDF.rows.map fun r =>
          (cellOrZero (getCell r 2), cellOrZero (getCell r 3))) :=
  ⟨meanCells_one_missing as bs,
   meanCells_ne_zeroSub as bs hsum,
   by rw [pairUp_one_missing xs ys us vs x hlen],
   by with_unfolding_all decide,
   by with_unfolding_all decide,
   by with_unfolding_all decide⟩

/-- Witness for C3 at the sample table's price column: present values
120, 80, 200 around the missing entry, paired against the value column. -/
theorem missing_exclusion_c3_witness :
    ([120, 80] ++ [(200 : ℚ)]).sum ≠ 0 ∧
      [(10 : ℚ), 20].length = [(120 : ℚ), 80].length ∧
      (meanCells ([(120 : ℚ), 80].map Cell.num ++
            Cell.missing :: [(200 : ℚ)].map Cell.num) =
          meanCells (([(120 : ℚ), 80] ++ [(200 : ℚ)]).map Cell.num) ∧
        meanCells ([(120 : ℚ), 80].map Cell.num ++
            Cell.missing :: [(200 : ℚ)].map Cell.num) ≠
          meanZeroSub ([(120 : ℚ), 80].map Cell.num ++
            Cell.missing :: [(200 : ℚ)].map Cell.num) ∧
        corrRsq (pairUp ([(10 : ℚ), 20].map Cell.num ++
              Cell.num 30 :: [(40 : ℚ)].map Cell.num)
            ([(120 : ℚ), 80].map Cell.num ++
              Cell.missing :: [(200 : ℚ)].map Cell.num)) =
          corrRsq (pairUp (([(10 : ℚ), 20] ++ [(40 : ℚ)]).map Cell.num)
            (([(120 : ℚ), 80] ++ [(200 : ℚ)]).map Cell.num)) ∧
        meanCells (groupCol sampleDF "col" (Cell.str "B") "price") =
          meanCells (groupCol sampleDFdrop "col" (Cell.str "B") "price") ∧
        meanCells (groupCol sampleDF "col" (Cell.str "A") "price") =
          meanCells (groupCol sampleDFdrop "col" (Cell.str "A") "price") ∧
        corrRsq (pairUp sampleValueCol samplePriceCol) ≠
          corrRsq (sampleDF.rows.map fun r =>
            (cellOrZero (getCell r 2), cellOrZero (getCell r 3)))) :=
  ⟨by with_unfolding_all decide, by decide,
   missing_exclusion_c3 [120, 80] [200]
     (by with_unfolding_all decide)
     [10, 20] [40] [120, 80] [200] 30 (by decide)⟩

/-- C4: grouping the records (A,10),(A,20),(B,30),(B,40) by the first
field and taking the mean of the second yields exactly A to 15 and B to
35; on the sample table the grouped mean aggregates exactly the numeric
columns (value at index 2 and price at index 3), ignoring the text and
date columns rather than failing, and yields A to (15, 100) and B to
(35, 200). -/
theorem grouping_c4 :
    groupbyMean pairsFrame "col" =
        [(Cell.str "A", [Cell.num 15]), (Cell.str "B", [Cell.num 35])] ∧
      numericCols sampleDF = [2, 3] ∧
      groupbyMean sampleDF "col" =
        [(Cell.str "A", [Cell.num 15, Cell.num 100]),
         (Cell.str "B", [Cell.num 35, Cell.num 200])] := by
  with_unfolding_all decide

/-- C5: the destructive list edits behave as specified at the boundaries -
deleting index 1 of [10,20,30,40] yields [10,30,40], removing the first
occurrence of 2 from [1,2,2,3] yields [1,2,3], and popping the last
element of ["a","b","c"] returns "c" leaving ["a","b"]. -/
theorem list_edits_c5 :
    delAt [10, 20, 30, 40] 1 = [10, 30, 40] ∧
      removeFirst? [1, 2, 2, 3] 2 = some [1, 2, 3] ∧
      popLast? ["a", "b", "c"] = some ("c", ["a", "b"]) := by decide

/-- C6: excluding v from a sequence and then selecting only v yields the
empty sequence, and excluding v twice equals excluding it once. -/
theorem filter_idem_c6 {α : Type} [DecidableEq α] (l : List α) (v : α) :
    pyFilterEq (pyFilterNe l v) v = [] ∧
      pyFilterNe (pyFilterNe l v) v = pyFilterNe l v := by
  induction l with
  | nil => exact ⟨rfl, rfl⟩
  | cons x l ih =>
    rcases ih with ⟨ih1, ih2⟩
    by_cases hx : x = v
    · have hd : decide (x ≠ v) = false := by simp [hx]
      rw [pyFilterNe, List.filter_cons, hd]
      exact ⟨ih1, ih2⟩
    · have hd : decide (x ≠ v) = true := by simp [hx]
      have he : decide (x = v) = false := by simp [hx]
      rw [pyFilterNe, List.filter_cons, hd]
      constructor
      · rw [if_pos rfl, pyFilterEq, List.filter_cons, he]
        exact ih1
      · rw [if_pos rfl, pyFilterNe, List.filter_cons, hd, if_pos rfl]
        simp only [pyFilterNe] at ih2
        rw [ih2]

/-- C7: linear regression over the points (0,1),(1,3),(2,5),(3,7), which
lie exactly on y = 2x + 1, returns slope 2, intercept 1 and correlation
coefficient 1 - exactly over the rationals, hence within any
floating-point tolerance: r^2 = 1 with positive covariance, so r = 1. -/
theorem regression_c7 :
    lrSlope [(0, 1), (1, 3), (2, 5), (3, 7)] = 2 ∧
      lrIntercept [(0, 1), (1, 3), (2, 5), (3, 7)] = 1 ∧
      corrRsq [(0, 1), (1, 3), (2, 5), (3, 7)] = some 1 ∧
      0 < sampleCov [(0, 1), (1, 3), (2, 5), (3, 7)] := by
  with_unfolding_all decide

/-- C8: reading a file back immediately after writing it returns exactly
the string that was written, for every store, filename and content
(multi-line or not). -/
theorem text_roundtrip_c8 (fs : FileStore) (name content : String) :
    readTextFile (writeTextFile fs name content) name = some content := by
  rw [writeTextFile, readTextFile,
    List.find?_cons_of_pos _ (by simp), Option.map_some']

/-- C9: dropna(how="any") keeps exactly the rows free of missing fields
and dropna(how="all") drops a row only when every field is missing; on
the sample table the former drops exactly the blank-price record (3 of 4
rows remain) and the latter drops nothing. -/
theorem dropna_c9 (df : DF) (r : List Cell) :
    (r ∈ (dropnaAny df).rows ↔ r ∈ df.rows ∧ rowHasMissing r = false) ∧
      (r ∈ (dropnaAll df).rows ↔ r ∈ df.rows ∧ rowAllMissing r = false) ∧
      (dropnaAny sampleDF).rows =
        [[Cell.date 2026 2 1, Cell.str "A", Cell.num 10, Cell.num 120,
          Cell.str "Alpha"],
         [Cell.date 2026 2 2, Cell.str "A", Cell.num 20, Cell.num 80,
          Cell.str "Beta"],
         [Cell.date 2026 2 4, Cell.str "B", Cell.num 40, Cell.num 200,
          Cell.str "Delta"]] ∧
      (dropnaAny sampleDF).rows.length = 3 ∧
      sampleDF.rows.length = 4 ∧
      dropnaAll sampleDF = sampleDF := by
  refine ⟨?_, ?_, by decide, by decide, by decide, by decide⟩
  · simp [dropnaAny, List.mem_filter]
  · simp [dropnaAll, List.mem_filter]

/-- C10: a missing cell never satisfies the numeric comparison, and the
boolean filter price > 100 with columns name, price selects exactly the
records Alpha (price 120) and Delta (price 200), excluding the record
with the missing price. -/
theorem loc_filter_c10 :
    (∀ q : ℚ, cellGT Cell.missing q = false) ∧
      selectCols (filterRows sampleDF fun r =>
          cellGT (getCell r (colIdx sampleDF.cols "price")) 100)
        ["name", "price"] =
        ⟨["name", "price"],
         [[Cell.str "Alpha", Cell.num 120],
          [Cell.str "Delta", Cell.num 200]]⟩ :=
  ⟨fun _ => rfl, by with_unfolding_all decide⟩

end DataModelling
